import Mathlib

/-!
Verification of the hypertrophy-app workout tracker.

This file gives a shallow embedding of the core logic of the app
(`src/app/page.tsx`, `lib/database.ts`, and the API routes) and proves the
specified properties about it.

Modelling conventions:
* JavaScript `number` values (weight, reps, sets) are modelled as `ℚ`;
  `date` timestamps (`new Date(s).getTime()`) as `ℤ`.
* The TypeScript union type `1 | 2 | 3 | 4 | 5` for `difficulty` is an
  inductive `Difficulty` with five constructors.
* `Array.prototype.sort` is (per the ECMAScript language spec) a stable
  sort and, in JavaScript, sorts the array in place, returning the same
  array.  It is modelled by a stable insertion sort; `getRecentWorkouts`
  returns both its result and the post-call contents of the `workouts`
  array so that the in-place mutation is visible in the model.
* Form fields held as strings in React state are modelled as `Option`
  values: the empty string (falsy) is `none`, a non-empty string is
  `some` of its parsed value.  Note that the string `0` is a non-empty
  string and hence truthy, so `some 0` passes the presence check,
  exactly as in the source.
-/

/-- The `Lift` record (`interface Lift` in `page.tsx`). -/
structure Lift where
  id : String
  name : String
  createdAt : String
deriving DecidableEq

/-- The TypeScript type `1 | 2 | 3 | 4 | 5` of the `difficulty` field. -/
inductive Difficulty where
  | one
  | two
  | three
  | four
  | five
deriving DecidableEq

/-- Numeric value of a difficulty level. -/
def Difficulty.val : Difficulty → ℤ
  | .one => 1
  | .two => 2
  | .three => 3
  | .four => 4
  | .five => 5

/-- The `WorkoutEntry` record (`interface WorkoutEntry` in `page.tsx`). -/
structure WorkoutEntry where
  id : String
  liftId : String
  weight : ℚ
  reps : ℚ
  sets : ℚ
  difficulty : Difficulty
  date : ℤ
deriving DecidableEq

/-- The record state of the app: the `lifts` and `workouts` React state lists. -/
structure TrackerState where
  lifts : List Lift
  workouts : List WorkoutEntry
deriving DecidableEq

/-- `deleteLift` (page.tsx):
`setLifts(lifts.filter(lift => lift.id !== id));`
`setWorkouts(workouts.filter(workout => workout.liftId !== id));` -/
def deleteLift (s : TrackerState) (id : String) : TrackerState :=
  { lifts := s.lifts.filter (fun lift => lift.id ≠ id),
    workouts := s.workouts.filter (fun workout => workout.liftId ≠ id) }

/-- `deleteWorkout` (page.tsx):
`setWorkouts(workouts.filter(workout => workout.id !== id));` -/
def deleteWorkout (s : TrackerState) (id : String) : TrackerState :=
  { s with workouts := s.workouts.filter (fun workout => workout.id ≠ id) }

/-- `totalWeight` from `getMetrics` (page.tsx):
`workouts.reduce((sum, w) => sum + (w.weight * w.reps * w.sets), 0)`. -/
def totalWeight (workouts : List WorkoutEntry) : ℚ :=
  workouts.foldl (fun sum w => sum + w.weight * w.reps * w.sets) 0

/-- `uniqueExercises` from `getMetrics` (page.tsx):
`new Set(workouts.map(w => w.liftId)).size`. -/
def uniqueExercises (workouts : List WorkoutEntry) : ℕ :=
  ((workouts.map (fun w => w.liftId)).dedup).length

/-- Direction of exercise progression (the strings `up`, `down`, `neutral`). -/
inductive Progression where
  | up
  | down
  | neutral
deriving DecidableEq

/-- The comparison chain at the end of `getExerciseProgression` (page.tsx):
latest entry versus second-latest, weight first, then reps. -/
def progressionStep (recent previous : WorkoutEntry) : Progression :=
  if previous.weight < recent.weight then .up
  else if recent.weight < previous.weight then .down
  else if previous.reps < recent.reps then .up
  else if recent.reps < previous.reps then .down
  else .neutral

/-- Stable insertion, ascending by `date`.  Models one step of the stable
ECMAScript sort with comparator `(a, b) => dateOf a - dateOf b`: an element
inserted from the left of the list keeps its place before later elements
with an equal date. -/
def insertAscByDate (w : WorkoutEntry) : List WorkoutEntry → List WorkoutEntry
  | [] => [w]
  | x :: xs => if w.date ≤ x.date then w :: x :: xs else x :: insertAscByDate w xs

/-- Stable sort, ascending by `date`. -/
def sortAscByDate : List WorkoutEntry → List WorkoutEntry
  | [] => []
  | x :: xs => insertAscByDate x (sortAscByDate xs)

/-- Stable insertion, descending by `date` (comparator `(a, b) => dateOf b - dateOf a`). -/
def insertDescByDate (w : WorkoutEntry) : List WorkoutEntry → List WorkoutEntry
  | [] => [w]
  | x :: xs => if x.date ≤ w.date then w :: x :: xs else x :: insertDescByDate w xs

/-- Stable sort, descending by `date`. -/
def sortDescByDate : List WorkoutEntry → List WorkoutEntry
  | [] => []
  | x :: xs => insertDescByDate x (sortDescByDate xs)

/-- `getExerciseProgression` (page.tsx): filter the workouts to the given
lift, stable-sort ascending by date, then compare the last entry with the
second-to-last (`exerciseWorkouts[length - 1]` and `[length - 2]`); fewer
than two entries give `neutral`. -/
def getExerciseProgression (workouts : List WorkoutEntry) (liftId : String) :
    Progression :=
  let exerciseWorkouts :=
    sortAscByDate (workouts.filter (fun w => w.liftId = liftId))
  match exerciseWorkouts.reverse with
  | recent :: previous :: _ => progressionStep recent previous
  | _ => .neutral

/-- `getRecentWorkouts` (page.tsx):
`workouts.sort((a, b) => b.date - a.date).slice(0, 5)`.
JavaScript `sort` reorders the array in place and returns that same array,
so the model returns both the sliced result (first component) and the
post-call contents of the `workouts` state array (second component). -/
def getRecentWorkouts (workouts : List WorkoutEntry) :
    List WorkoutEntry × List WorkoutEntry :=
  let sorted := sortDescByDate workouts
  (sorted.take 5, sorted)

/-- `personalRecords.get(w.liftId) || 0` on an association-list model of the
JavaScript `Map` (a stored value is never falsy here, so the `|| 0` default
only applies to a missing key). -/
def prLookup (k : String) : List (String × ℚ) → ℚ
  | [] => 0
  | (k2, v) :: rest => if k = k2 then v else prLookup k rest

/-- `Map.prototype.set` on the association-list model: update in place if
the key is present (keeping insertion order), otherwise append. -/
def prSet (k : String) (v : ℚ) : List (String × ℚ) → List (String × ℚ)
  | [] => [(k, v)]
  | (k2, v2) :: rest => if k = k2 then (k, v) :: rest else (k2, v2) :: prSet k v rest

/-- The `personalRecords` map built in `getMetrics` (page.tsx): for each
entry, store its weight under its `liftId` when it beats the current record
(`w.weight > current`, with `current = get(liftId) || 0`). -/
def personalRecordsMap (workouts : List WorkoutEntry) : List (String × ℚ) :=
  workouts.foldl
    (fun m w => if prLookup w.liftId m < w.weight then prSet w.liftId w.weight m else m)
    []

/-- The reported `personalRecords` metric (page.tsx): `personalRecords.size`. -/
def personalRecords (workouts : List WorkoutEntry) : ℕ :=
  (personalRecordsMap workouts).length

/-- A user data partition: the pair of lists handled by the Sync Bridge. -/
structure Partition where
  lifts : List Lift
  workouts : List WorkoutEntry
deriving DecidableEq

/-- The merge step of `loadFromCloud` (page.tsx): replace the local state
with the pulled cloud data only when either cloud list is non-empty
(`cloudData.lifts.length > 0 || cloudData.workouts.length > 0`). -/
def loadFromCloud (localData cloudData : Partition) : Partition :=
  if 0 < cloudData.lifts.length ∨ 0 < cloudData.workouts.length then cloudData
  else localData

/-- The sign-in `useEffect` (page.tsx): run `loadFromCloud`, then invoke
`syncToCloud` exactly when the (pre-pull) local lists satisfy
`lifts.length > 0 || workouts.length > 0`.  The second component records
whether the push was triggered. -/
def signInEffect (localData cloudData : Partition) : Partition × Bool :=
  (loadFromCloud localData cloudData,
   decide (0 < localData.lifts.length) || decide (0 < localData.workouts.length))

/-- Body of a successful `/api/load-data` response as consumed by
`loadDataFromCloud`; the `lifts` / `workouts` fields may be absent, in
which case the `|| []` defaults apply. -/
structure LoadBody where
  lifts : Option (List Lift)
  workouts : Option (List WorkoutEntry)
deriving DecidableEq

/-- Outcome of the `fetch` in `syncDataToCloud`: either the promise rejects
(network error, handled by the `catch` block) or a response arrives with
the given `ok` flag. -/
inductive SyncFetchOutcome where
  | netError
  | response (ok : Bool)
deriving DecidableEq

/-- Outcome of the `fetch` in `loadDataFromCloud`. -/
inductive LoadFetchOutcome where
  | netError
  | response (ok : Bool) (body : LoadBody)
deriving DecidableEq

/-- `syncDataToCloud` (lib/database.ts): `false` when the user id is empty
(falsy) or the request rejects; otherwise `response.ok`. -/
def syncDataToCloud (userId : String) (outcome : SyncFetchOutcome) : Bool :=
  if userId = "" then false
  else
    match outcome with
    | .netError => false
    | .response ok => ok

/-- `loadDataFromCloud` (lib/database.ts): the pulled pair
`(data.lifts || [], data.workouts || [])` on an ok response, and `([], [])`
when the user id is empty, the request rejects, or the response is not ok. -/
def loadDataFromCloud (userId : String) (outcome : LoadFetchOutcome) :
    List Lift × List WorkoutEntry :=
  if userId = "" then ([], [])
  else
    match outcome with
    | .netError => ([], [])
    | .response ok body =>
        if ok then (body.lifts.getD [], body.workouts.getD []) else ([], [])

/-- The log-session form state: `selectedLiftId` plus the `weight`, `reps`
and `sets` input strings.  A string field is `none` when empty (falsy) and
`some` of its parsed numeric value otherwise; the string `0` is non-empty
and hence truthy, so `some 0` passes the presence check as in the source. -/
structure LogForm where
  selectedLiftId : String
  weight : Option ℚ
  reps : Option ℚ
  sets : Option ℚ
  difficulty : Difficulty
deriving DecidableEq

/-- `addLift` (page.tsx): append a new lift when the trimmed name is
non-empty (truthy).  The `id` and `createdAt` values come from `Date.now()`
and `new Date()` and are passed in as parameters. -/
def addLift (s : TrackerState) (id name createdAt : String) : TrackerState :=
  if name.trim = "" then s
  else
    { s with lifts :=
        s.lifts ++ [{ id := id, name := name.trim, createdAt := createdAt }] }

/-- `logWorkout` (page.tsx): when `selectedLiftId`, `weight`, `reps` and
`sets` are all truthy (present), prepend the parsed entry; otherwise do
nothing.  No range validation is performed on the parsed values. -/
def logWorkout (s : TrackerState) (id : String) (form : LogForm) (date : ℤ) :
    TrackerState :=
  match form.weight, form.reps, form.sets with
  | some w, some r, some st =>
      if form.selectedLiftId = "" then s
      else
        { s with workouts :=
            { id := id, liftId := form.selectedLiftId, weight := w, reps := r,
              sets := st, difficulty := form.difficulty, date := date }
              :: s.workouts }
  | _, _, _ => s

/-- A user action on the Record Store. -/
inductive Op where
  | addLift (id name createdAt : String)
  | logWorkout (id : String) (form : LogForm) (date : ℤ)
  | deleteLift (id : String)
  | deleteWorkout (id : String)

/-- Dispatch one user action (the four handlers in page.tsx). -/
def applyOp (s : TrackerState) : Op → TrackerState
  | .addLift id name createdAt => addLift s id name createdAt
  | .logWorkout id form date => logWorkout s id form date
  | .deleteLift id => deleteLift s id
  | .deleteWorkout id => deleteWorkout s id

/-- Run a sequence of user actions from a state. -/
def runOps (s : TrackerState) : List Op → TrackerState
  | [] => s
  | op :: rest => runOps (applyOp s op) rest

/-- The empty initial state (the `useLocalStorage` defaults). -/
def emptyState : TrackerState := { lifts := [], workouts := [] }

/-- Range conditions on the present fields of a log form: nonnegative
weight, reps at least 1, sets at least 1. -/
def FormInRange (form : LogForm) : Prop :=
  (∀ w, form.weight = some w → 0 ≤ w) ∧
  (∀ r, form.reps = some r → 1 ≤ r) ∧
  (∀ st, form.sets = some st → 1 ≤ st)

/-- An action whose submitted numeric values are in range (actions other
than a log-session submission carry no numeric fields). -/
def OpInRange : Op → Prop
  | .logWorkout _ form _ => FormInRange form
  | _ => True

/-- The entry-level invariant claimed for stored workout entries. -/
def EntryOk (w : WorkoutEntry) : Prop :=
  0 ≤ w.weight ∧ 1 ≤ w.reps ∧ 1 ≤ w.sets ∧
  1 ≤ w.difficulty.val ∧ w.difficulty.val ≤ 5

/-- Two entries agreeing on every field that `getExerciseProgression`
reads: `liftId`, `weight`, `reps` and `date` (`sets` and `difficulty` are
unconstrained). -/
def SameProgressionFields (a b : WorkoutEntry) : Prop :=
  a.liftId = b.liftId ∧ a.weight = b.weight ∧ a.reps = b.reps ∧ a.date = b.date

/-- A concrete sample entry used in witnesses and counterexamples. -/
def sampleEntry (id liftId : String) (weight reps : ℚ) (date : ℤ) : WorkoutEntry :=
  { id := id, liftId := liftId, weight := weight, reps := reps, sets := 1,
    difficulty := .three, date := date }

theorem count_filter_eq {α : Type} [DecidableEq α] (p : α → Bool) (l : List α) (a : α) :
    (l.filter p).count a = if p a then l.count a else 0 := by
  induction l with
  | nil => simp
  | cons x xs ih =>
      by_cases hx : p x
      · rw [List.filter_cons_of_pos hx]
        by_cases hax : a = x
        · subst hax
          simp [List.count_cons, ih, hx]
        · simp [List.count_cons, Ne.symm hax, ih, hax]
      · rw [List.filter_cons_of_neg hx]
        by_cases hax : a = x
        · subst hax
          simp [ih, hx]
        · simp [List.count_cons, Ne.symm hax, ih, hax]

/-- C1: deleting the exercise with id `E` removes exactly the exercises whose
id is `E` and exactly the workout entries whose `liftId` is `E` (counting
multiplicity), preserving the relative order of everything else; deleting a
single workout entry by id removes exactly the entries with that id and
leaves the exercise list unchanged. -/
theorem deleteLift_deleteWorkout_exact (s : TrackerState) (E i : String) :
    (∀ l : Lift, (deleteLift s E).lifts.count l =
        if l.id = E then 0 else s.lifts.count l) ∧
    (deleteLift s E).lifts.Sublist s.lifts ∧
    (∀ w : WorkoutEntry, (deleteLift s E).workouts.count w =
        if w.liftId = E then 0 else s.workouts.count w) ∧
    (deleteLift s E).workouts.Sublist s.workouts ∧
    (deleteWorkout s i).lifts = s.lifts ∧
    (∀ w : WorkoutEntry, (deleteWorkout s i).workouts.count w =
        if w.id = i then 0 else s.workouts.count w) ∧
    (deleteWorkout s i).workouts.Sublist s.workouts := by
  refine ⟨?_, ?_, ?_, ?_, ?_, ?_, ?_⟩
  · intro l
    rw [deleteLift, count_filter_eq]
    by_cases h : l.id = E <;> simp [h]
  · exact List.filter_sublist _
  · intro w
    rw [deleteLift, count_filter_eq]
    by_cases h : w.liftId = E <;> simp [h]
  · exact List.filter_sublist _
  · rfl
  · intro w
    rw [deleteWorkout, count_filter_eq]
    by_cases h : w.id = i <;> simp [h]
  · exact List.filter_sublist _

theorem totalWeight_eq_sum (workouts : List WorkoutEntry) :
    totalWeight workouts =
      (workouts.map (fun w => w.weight * w.reps * w.sets)).sum := by
  have key : ∀ (l : List WorkoutEntry) (a : ℚ),
      l.foldl (fun sum w => sum + w.weight * w.reps * w.sets) a =
        a + (l.map (fun w => w.weight * w.reps * w.sets)).sum := by
    intro l
    induction l with
    | nil => intro a; simp
    | cons x xs ih =>
        intro a
        simp only [List.foldl_cons, List.map_cons, List.sum_cons, ih]
        ring
  simpa using key workouts 0

/-- C5: `totalWeight` is the exact sum of `weight * reps * sets` over all
entries, and inserting an entry with weight 100, reps 5, sets 3 anywhere into
a list increases it by exactly 1500. -/
theorem totalWeight_spec (workouts l₁ l₂ : List WorkoutEntry) (e : WorkoutEntry)
    (hw : e.weight = 100) (hr : e.reps = 5) (hs : e.sets = 3) :
    totalWeight workouts =
      (workouts.map (fun w => w.weight * w.reps * w.sets)).sum ∧
    totalWeight (l₁ ++ e :: l₂) = totalWeight (l₁ ++ l₂) + 1500 := by
  constructor
  · exact totalWeight_eq_sum workouts
  · rw [totalWeight_eq_sum, totalWeight_eq_sum]
    simp [hw, hr, hs]
    ring

/-- Witness for C5 at a concrete input: the empty history plus the
100 × 5 × 3 entry has total volume 1500. -/
theorem totalWeight_spec_witness :
    totalWeight ([] ++
        ({ id := "2", liftId := "1", weight := 100, reps := 5, sets := 3,
           difficulty := .three, date := 2 } : WorkoutEntry) :: []) =
      totalWeight ([] ++ ([] : List WorkoutEntry)) + 1500 :=
  (totalWeight_spec [] [] []
    { id := "2", liftId := "1", weight := 100, reps := 5, sets := 3,
      difficulty := .three, date := 2 } rfl rfl rfl).2

theorem insertAscByDate_length (w : WorkoutEntry) (l : List WorkoutEntry) :
    (insertAscByDate w l).length = l.length + 1 := by
  induction l with
  | nil => rfl
  | cons x xs ih =>
      rw [insertAscByDate]
      by_cases h : w.date ≤ x.date
      · rw [if_pos h]; rfl
      · rw [if_neg h, List.length_cons, List.length_cons, ih]

theorem sortAscByDate_length (l : List WorkoutEntry) :
    (sortAscByDate l).length = l.length := by
  induction l with
  | nil => rfl
  | cons x xs ih =>
      rw [sortAscByDate, insertAscByDate_length, ih, List.length_cons]

theorem insertDescByDate_perm (w : WorkoutEntry) (l : List WorkoutEntry) :
    (insertDescByDate w l).Perm (w :: l) := by
  induction l with
  | nil => exact List.Perm.refl _
  | cons x xs ih =>
      rw [insertDescByDate]
      by_cases h : x.date ≤ w.date
      · rw [if_pos h]
      · rw [if_neg h]
        exact (ih.cons x).trans (List.Perm.swap w x xs)

theorem sortDescByDate_perm (l : List WorkoutEntry) :
    (sortDescByDate l).Perm l := by
  induction l with
  | nil => exact List.Perm.refl _
  | cons x xs ih =>
      rw [sortDescByDate]
      exact (insertDescByDate_perm x _).trans (ih.cons x)

theorem insertDescByDate_pairwise (w : WorkoutEntry) (l : List WorkoutEntry)
    (h : l.Pairwise (fun a b => b.date ≤ a.date)) :
    (insertDescByDate w l).Pairwise (fun a b => b.date ≤ a.date) := by
  induction l with
  | nil => simp [insertDescByDate]
  | cons x xs ih =>
      rw [List.pairwise_cons] at h
      obtain ⟨hx, hxs⟩ := h
      rw [insertDescByDate]
      by_cases hc : x.date ≤ w.date
      · rw [if_pos hc, List.pairwise_cons]
        refine ⟨?_, List.pairwise_cons.mpr ⟨hx, hxs⟩⟩
        intro y hy
        rcases List.mem_cons.mp hy with rfl | hy2
        · exact hc
        · exact le_trans (hx y hy2) hc
      · rw [if_neg hc, List.pairwise_cons]
        refine ⟨?_, ih hxs⟩
        intro y hy
        have hmem : y ∈ w :: xs := (insertDescByDate_perm w xs).mem_iff.mp hy
        rcases List.mem_cons.mp hmem with rfl | hy2
        · exact (not_le.mp hc).le
        · exact hx y hy2

theorem sortDescByDate_pairwise (l : List WorkoutEntry) :
    (sortDescByDate l).Pairwise (fun a b => b.date ≤ a.date) := by
  induction l with
  | nil => exact List.Pairwise.nil
  | cons x xs ih => exact insertDescByDate_pairwise x _ ih

theorem insertDescByDate_filter_date (d : ℤ) (w : WorkoutEntry)
    (l : List WorkoutEntry) :
    (insertDescByDate w l).filter (fun x => x.date = d) =
      if w.date = d then w :: l.filter (fun x => x.date = d)
      else l.filter (fun x => x.date = d) := by
  induction l with
  | nil => by_cases h : w.date = d <;> simp [insertDescByDate, h]
  | cons x xs ih =>
      rw [insertDescByDate]
      by_cases hc : x.date ≤ w.date
      · rw [if_pos hc]
        by_cases h : w.date = d <;> simp [List.filter_cons, h]
      · rw [if_neg hc]
        have hwx : w.date < x.date := not_le.mp hc
        by_cases h : w.date = d
        · have hx : ¬ x.date = d := by omega
          rw [if_pos h]
          simp [List.filter_cons, hx, ih, h]
        · rw [if_neg h]
          by_cases hx : x.date = d <;> simp [List.filter_cons, hx, ih, h]

theorem sortDescByDate_filter_date (d : ℤ) (l : List WorkoutEntry) :
    (sortDescByDate l).filter (fun x => x.date = d) =
      l.filter (fun x => x.date = d) := by
  induction l with
  | nil => rfl
  | cons x xs ih =>
      rw [sortDescByDate, insertDescByDate_filter_date]
      by_cases h : x.date = d <;> simp [List.filter_cons, h, ih]

/-- C6: `getRecentWorkouts` returns the 5 entries of greatest date (all of
them when there are fewer than 5), in descending date order, entries of
equal date keeping their original relative order; the remaining entries all
have dates no greater than any returned entry. -/
theorem getRecentWorkouts_spec (workouts : List WorkoutEntry) :
    (getRecentWorkouts workouts).1.length = min 5 workouts.length ∧
    (getRecentWorkouts workouts).1.Pairwise (fun a b => b.date ≤ a.date) ∧
    workouts.Perm
      ((getRecentWorkouts workouts).1 ++ (sortDescByDate workouts).drop 5) ∧
    (∀ x ∈ (getRecentWorkouts workouts).1,
      ∀ y ∈ (sortDescByDate workouts).drop 5, y.date ≤ x.date) ∧
    (∀ d : ℤ,
      ((getRecentWorkouts workouts).1.filter (fun w => w.date = d)).Sublist
        (workouts.filter (fun w => w.date = d))) := by
  have hperm := sortDescByDate_perm workouts
  have hpw := sortDescByDate_pairwise workouts
  have hsplit :
      (getRecentWorkouts workouts).1 ++ (sortDescByDate workouts).drop 5 =
        sortDescByDate workouts := List.take_append_drop 5 _
  refine ⟨?_, ?_, ?_, ?_, ?_⟩
  · show ((sortDescByDate workouts).take 5).length = min 5 workouts.length
    rw [List.length_take, hperm.length_eq]
  · exact hpw.sublist (List.take_sublist 5 _)
  · rw [hsplit]; exact hperm.symm
  · have h2 := List.pairwise_append.mp (hsplit.symm ▸ hpw)
    exact h2.2.2
  · intro d
    have h3 : ((getRecentWorkouts workouts).1.filter
        (fun w => w.date = d)).Sublist
          ((sortDescByDate workouts).filter (fun w => w.date = d)) :=
      (List.take_sublist 5 _).filter _
    rw [sortDescByDate_filter_date] at h3
    exact h3

/-- Witness for C6 at a concrete input: on a list of six entries with dates
6 down to 1, the dropped entry (date 1) has a date no greater than the
returned entry of date 6. -/
theorem getRecentWorkouts_spec_witness :
    (sampleEntry "1" "L" 100 5 1).date ≤ (sampleEntry "6" "L" 100 5 6).date :=
  (getRecentWorkouts_spec
      [sampleEntry "6" "L" 100 5 6, sampleEntry "5" "L" 100 5 5,
       sampleEntry "4" "L" 100 5 4, sampleEntry "3" "L" 100 5 3,
       sampleEntry "2" "L" 100 5 2, sampleEntry "1" "L" 100 5 1]).2.2.2.1
    (sampleEntry "6" "L" 100 5 6) (by decide)
    (sampleEntry "1" "L" 100 5 1) (by decide)

/-- C8 (code evidence): the Metrics Engine is not side-effect-free over the
workout list.  `getRecentWorkouts` calls `Array.prototype.sort` directly on
the `workouts` state array, which reorders it in place: after the call on
the two-entry list below (dates 1 then 2), the array holds the entries in
the opposite order. -/
theorem getRecentWorkouts_mutates :
    (getRecentWorkouts
        [sampleEntry "1" "L" 100 5 1, sampleEntry "2" "L" 100 5 2]).2 =
      [sampleEntry "2" "L" 100 5 2, sampleEntry "1" "L" 100 5 1] ∧
    (getRecentWorkouts
        [sampleEntry "1" "L" 100 5 1, sampleEntry "2" "L" 100 5 2]).2 ≠
      [sampleEntry "1" "L" 100 5 1, sampleEntry "2" "L" 100 5 2] := by
  constructor
  · decide
  · decide

theorem getExerciseProgression_eq (workouts : List WorkoutEntry)
    (liftId : String) :
    getExerciseProgression workouts liftId =
      match (sortAscByDate (workouts.filter (fun w => w.liftId = liftId))).reverse with
      | recent :: previous :: _ => progressionStep recent previous
      | _ => .neutral := rfl

theorem forall₂_filter_liftId (liftId : String) {l₁ l₂ : List WorkoutEntry}
    (h : List.Forall₂ SameProgressionFields l₁ l₂) :
    List.Forall₂ SameProgressionFields
      (l₁.filter (fun w => w.liftId = liftId))
      (l₂.filter (fun w => w.liftId = liftId)) := by
  induction h with
  | nil => exact List.Forall₂.nil
  | cons hab hrest ih =>
      rename_i a b as bs
      by_cases hm : a.liftId = liftId
      · have hm2 : b.liftId = liftId := hab.1 ▸ hm
        simp only [List.filter_cons, hm, hm2]
        simp only [decide_eq_true_eq, if_pos]
        exact List.Forall₂.cons hab ih
      · have hm2 : ¬ b.liftId = liftId := fun hh => hm (hab.1 ▸ hh)
        simp only [List.filter_cons]
        rw [if_neg (by simpa using hm), if_neg (by simpa using hm2)]
        exact ih

theorem forall₂_insertAscByDate {w₁ w₂ : WorkoutEntry}
    {l₁ l₂ : List WorkoutEntry} (hw : SameProgressionFields w₁ w₂)
    (h : List.Forall₂ SameProgressionFields l₁ l₂) :
    List.Forall₂ SameProgressionFields
      (insertAscByDate w₁ l₁) (insertAscByDate w₂ l₂) := by
  induction h with
  | nil => exact List.Forall₂.cons hw List.Forall₂.nil
  | cons hab hrest ih =>
      rename_i a b as bs
      rw [insertAscByDate, insertAscByDate]
      have hdate : w₁.date = w₂.date := hw.2.2.2
      have hadate : a.date = b.date := hab.2.2.2
      by_cases hc : w₁.date ≤ a.date
      · have hc2 : w₂.date ≤ b.date := by rw [← hdate, ← hadate]; exact hc
        rw [if_pos hc, if_pos hc2]
        exact List.Forall₂.cons hw (List.Forall₂.cons hab hrest)
      · have hc2 : ¬ w₂.date ≤ b.date := by rw [← hdate, ← hadate]; exact hc
        rw [if_neg hc, if_neg hc2]
        exact List.Forall₂.cons hab ih

theorem forall₂_sortAscByDate {l₁ l₂ : List WorkoutEntry}
    (h : List.Forall₂ SameProgressionFields l₁ l₂) :
    List.Forall₂ SameProgressionFields (sortAscByDate l₁) (sortAscByDate l₂) := by
  induction h with
  | nil => exact List.Forall₂.nil
  | cons hab hrest ih => exact forall₂_insertAscByDate hab ih

/-- C4: `getExerciseProgression` returns `neutral` when the entries for the
lift number fewer than two; otherwise it compares the two entries of
greatest date (after the stable ascending sort) lexicographically, weight
before reps; and the result never depends on the `sets` or `difficulty`
fields of any entry. -/
theorem getExerciseProgression_spec (workouts : List WorkoutEntry)
    (liftId : String) :
    ((workouts.filter (fun w => w.liftId = liftId)).length < 2 →
      getExerciseProgression workouts liftId = .neutral) ∧
    (∀ (l : List WorkoutEntry) (previous recent : WorkoutEntry),
      sortAscByDate (workouts.filter (fun w => w.liftId = liftId)) =
        l ++ [previous, recent] →
      getExerciseProgression workouts liftId =
        if previous.weight < recent.weight then .up
        else if recent.weight < previous.weight then .down
        else if previous.reps < recent.reps then .up
        else if recent.reps < previous.reps then .down
        else .neutral) ∧
    (∀ workouts2 : List WorkoutEntry,
      List.Forall₂ SameProgressionFields workouts workouts2 →
      getExerciseProgression workouts liftId =
        getExerciseProgression workouts2 liftId) := by
  refine ⟨?_, ?_, ?_⟩
  · intro hlen
    rw [getExerciseProgression_eq]
    have hlen2 :
        (sortAscByDate (workouts.filter (fun w => w.liftId = liftId))).reverse.length < 2 := by
      rw [List.length_reverse, sortAscByDate_length]
      exact hlen
    cases hrev : (sortAscByDate (workouts.filter (fun w => w.liftId = liftId))).reverse with
    | nil => rfl
    | cons r rest =>
        cases rest with
        | nil => rfl
        | cons p rest2 =>
            rw [hrev] at hlen2
            simp at hlen2
            omega
  · intro l previous recent hsort
    rw [getExerciseProgression_eq, hsort]
    simp only [List.reverse_append, List.reverse_cons, List.reverse_nil,
      List.nil_append, List.cons_append]
    rfl
  · intro workouts2 h
    rw [getExerciseProgression_eq, getExerciseProgression_eq]
    have h2 := List.rel_reverse (forall₂_sortAscByDate (forall₂_filter_liftId liftId h))
    generalize hA :
      (sortAscByDate (workouts.filter (fun w => w.liftId = liftId))).reverse = A at h2 ⊢
    generalize hB :
      (sortAscByDate (workouts2.filter (fun w => w.liftId = liftId))).reverse = B at h2 ⊢
    cases h2 with
    | nil => rfl
    | cons hab htail =>
        cases htail with
        | nil => rfl
        | cons hcd h5 =>
            show progressionStep _ _ = progressionStep _ _
            rw [progressionStep, progressionStep, hab.2.1, hab.2.2.1, hcd.2.1, hcd.2.2.1]

/-- Witness for C4 at the concrete input from the spec: a 100 by 5 entry
followed by a 105 by 5 entry for the same lift yields `up`. -/
theorem getExerciseProgression_spec_witness :
    getExerciseProgression
        [sampleEntry "1" "L" 100 5 1, sampleEntry "2" "L" 105 5 2] "L" =
      Progression.up := by
  have h :=
    (getExerciseProgression_spec
        [sampleEntry "1" "L" 100 5 1, sampleEntry "2" "L" 105 5 2] "L").2.1
      [] (sampleEntry "1" "L" 100 5 1) (sampleEntry "2" "L" 105 5 2) (by decide)
  rw [h]
  decide

theorem prLookup_eq_zero (k : String) (m : List (String × ℚ)) :
    k ∉ m.map Prod.fst → prLookup k m = 0 := by
  induction m with
  | nil => intro _; rfl
  | cons p rest ih =>
      intro h
      obtain ⟨k2, v⟩ := p
      simp only [List.map_cons, List.mem_cons] at h
      push_neg at h
      rw [prLookup, if_neg h.1]
      exact ih h.2

theorem prLookup_pos (k : String) (m : List (String × ℚ)) :
    (∀ p ∈ m, 0 < p.2) → k ∈ m.map Prod.fst → 0 < prLookup k m := by
  induction m with
  | nil => intro _ h; simp at h
  | cons p rest ih =>
      intro hval h
      obtain ⟨k2, v⟩ := p
      rw [prLookup]
      by_cases hk : k = k2
      · rw [if_pos hk]
        exact hval (k2, v) (List.mem_cons_self _ _)
      · rw [if_neg hk]
        have h2 : k ∈ rest.map Prod.fst := by
          simp only [List.map_cons, List.mem_cons] at h
          tauto
        exact ih (fun p hp => hval p (List.mem_cons_of_mem _ hp)) h2

theorem prLookup_nonneg (k : String) (m : List (String × ℚ)) :
    (∀ p ∈ m, 0 < p.2) → 0 ≤ prLookup k m := by
  intro hval
  by_cases h : k ∈ m.map Prod.fst
  · exact (prLookup_pos k m hval h).le
  · rw [prLookup_eq_zero k m h]

theorem prSet_fst (k : String) (v : ℚ) (m : List (String × ℚ)) :
    (prSet k v m).map Prod.fst =
      if k ∈ m.map Prod.fst then m.map Prod.fst else m.map Prod.fst ++ [k] := by
  induction m with
  | nil => simp [prSet]
  | cons p rest ih =>
      obtain ⟨k2, v2⟩ := p
      rw [prSet]
      by_cases hk : k = k2
      · rw [if_pos hk]
        simp [List.map_cons, hk]
      · rw [if_neg hk]
        simp only [List.map_cons, ih, List.mem_cons]
        by_cases hm : k ∈ rest.map Prod.fst
        · rw [if_pos hm, if_pos (Or.inr hm)]
        · rw [if_neg hm, if_neg (by tauto), List.cons_append]

theorem prSet_keys_toFinset (k : String) (v : ℚ) (m : List (String × ℚ)) :
    ((prSet k v m).map Prod.fst).toFinset =
      insert k (m.map Prod.fst).toFinset := by
  rw [prSet_fst]
  by_cases h : k ∈ m.map Prod.fst
  · rw [if_pos h]
    exact (Finset.insert_eq_self.mpr (List.mem_toFinset.mpr h)).symm
  · rw [if_neg h, List.toFinset_append]
    simp [Finset.union_comm, Finset.insert_eq]

theorem prSet_nodup (k : String) (v : ℚ) (m : List (String × ℚ)) :
    (m.map Prod.fst).Nodup → ((prSet k v m).map Prod.fst).Nodup := by
  intro h
  rw [prSet_fst]
  by_cases hm : k ∈ m.map Prod.fst
  · rw [if_pos hm]; exact h
  · rw [if_neg hm]
    rw [List.nodup_append]
    exact ⟨h, List.nodup_singleton k,
      fun a ha hk => hm (by rcases List.mem_singleton.mp hk with rfl; exact ha)⟩

theorem prSet_values (k : String) (v : ℚ) (m : List (String × ℚ)) :
    (∀ p ∈ m, 0 < p.2) → 0 < v → ∀ p ∈ prSet k v m, 0 < p.2 := by
  induction m with
  | nil =>
      intro _ hv p hp
      rw [prSet] at hp
      rcases List.mem_singleton.mp hp with rfl
      exact hv
  | cons q rest ih =>
      intro hval hv p hp
      obtain ⟨k2, v2⟩ := q
      rw [prSet] at hp
      by_cases hk : k = k2
      · rw [if_pos hk] at hp
        rcases List.mem_cons.mp hp with rfl | hp2
        · exact hv
        · exact hval p (List.mem_cons_of_mem _ hp2)
      · rw [if_neg hk] at hp
        rcases List.mem_cons.mp hp with rfl | hp2
        · exact hval _ (List.mem_cons_self _ _)
        · exact ih (fun q hq => hval q (List.mem_cons_of_mem _ hq)) hv p hp2

theorem personalRecordsMap_fold (ws : List WorkoutEntry) :
    ∀ m : List (String × ℚ), (m.map Prod.fst).Nodup → (∀ p ∈ m, 0 < p.2) →
      (((ws.foldl
          (fun m w =>
            if prLookup w.liftId m < w.weight then prSet w.liftId w.weight m
            else m) m).map Prod.fst).Nodup ∧
      (∀ p ∈ ws.foldl
          (fun m w =>
            if prLookup w.liftId m < w.weight then prSet w.liftId w.weight m
            else m) m, 0 < p.2) ∧
      ((ws.foldl
          (fun m w =>
            if prLookup w.liftId m < w.weight then prSet w.liftId w.weight m
            else m) m).map Prod.fst).toFinset =
        (m.map Prod.fst).toFinset ∪
          ((ws.filter (fun w => 0 < w.weight)).map (fun w => w.liftId)).toFinset) := by
  induction ws with
  | nil =>
      intro m h1 h2
      exact ⟨h1, h2, by simp⟩
  | cons w rest ih =>
      intro m h1 h2
      rw [List.foldl_cons]
      by_cases hcond : prLookup w.liftId m < w.weight
      · rw [if_pos hcond]
        have hpos : 0 < w.weight := lt_of_le_of_lt (prLookup_nonneg _ _ h2) hcond
        obtain ⟨n1, n2, n3⟩ :=
          ih (prSet w.liftId w.weight m) (prSet_nodup _ _ _ h1)
            (prSet_values _ _ _ h2 hpos)
        refine ⟨n1, n2, ?_⟩
        rw [n3, prSet_keys_toFinset, List.filter_cons, if_pos (by simpa using hpos)]
        simp only [List.map_cons, List.toFinset_cons]
        rw [Finset.insert_union, Finset.union_insert]
      · rw [if_neg hcond]
        obtain ⟨n1, n2, n3⟩ := ih m h1 h2
        refine ⟨n1, n2, ?_⟩
        rw [n3]
        by_cases hpos : 0 < w.weight
        · have hlk : 0 < prLookup w.liftId m :=
            lt_of_lt_of_le hpos (not_lt.mp hcond)
          have hmem : w.liftId ∈ m.map Prod.fst := by
            by_contra hmem
            rw [prLookup_eq_zero _ _ hmem] at hlk
            exact lt_irrefl 0 hlk
          rw [List.filter_cons, if_pos (by simpa using hpos)]
          simp only [List.map_cons, List.toFinset_cons]
          rw [Finset.union_insert, Finset.insert_eq_self.mpr
            (Finset.mem_union_left _ (List.mem_toFinset.mpr hmem))]
        · rw [List.filter_cons, if_neg (by simpa using hpos)]

theorem personalRecords_eq_posIds (ws : List WorkoutEntry) :
    personalRecords ws =
      (((ws.filter (fun w => 0 < w.weight)).map (fun w => w.liftId)).dedup).length := by
  obtain ⟨n1, _, n3⟩ :=
    personalRecordsMap_fold ws [] (by simp) (by simp)
  rw [personalRecords, personalRecordsMap]
  calc
    (ws.foldl
        (fun m w =>
          if prLookup w.liftId m < w.weight then prSet w.liftId w.weight m
          else m) []).length
      = ((ws.foldl
          (fun m w =>
            if prLookup w.liftId m < w.weight then prSet w.liftId w.weight m
            else m) []).map Prod.fst).length := (List.length_map _ _).symm
    _ = ((ws.foldl
          (fun m w =>
            if prLookup w.liftId m < w.weight then prSet w.liftId w.weight m
            else m) []).map Prod.fst).toFinset.card :=
        (List.toFinset_card_of_nodup n1).symm
    _ = ((ws.filter (fun w => 0 < w.weight)).map (fun w => w.liftId)).toFinset.card := by
        rw [n3]; simp
    _ = (((ws.filter (fun w => 0 < w.weight)).map (fun w => w.liftId)).dedup).length :=
        List.card_toFinset _

/-- C7 (amended): the reported `personalRecords` metric counts the distinct
`liftId` values having at least one entry of strictly positive weight; it
agrees with `uniqueExercises` whenever every entry has positive weight. -/
theorem personalRecords_spec (ws : List WorkoutEntry) :
    personalRecords ws =
      (((ws.filter (fun w => 0 < w.weight)).map (fun w => w.liftId)).dedup).length ∧
    ((∀ w ∈ ws, 0 < w.weight) → personalRecords ws = uniqueExercises ws) := by
  refine ⟨personalRecords_eq_posIds ws, ?_⟩
  intro h
  rw [personalRecords_eq_posIds ws, uniqueExercises,
    List.filter_eq_self.mpr (fun a ha => by simpa using h a ha)]

/-- Witness for C7 at a concrete input: with one positive-weight entry the
two metrics agree (both are 1). -/
theorem personalRecords_spec_witness :
    personalRecords [sampleEntry "1" "L" 100 5 1] =
      uniqueExercises [sampleEntry "1" "L" 100 5 1] :=
  (personalRecords_spec [sampleEntry "1" "L" 100 5 1]).2 (by decide)

/-- Counterexample to C7 as stated: a single entry of weight 0 never beats
the `|| 0` default, so its lift gets no personal-record slot, while it does
count as a distinct exercise trained. -/
theorem personalRecords_counterexample :
    personalRecords [sampleEntry "1" "L" 0 5 1] = 0 ∧
    uniqueExercises [sampleEntry "1" "L" 0 5 1] = 1 ∧
    personalRecords [sampleEntry "1" "L" 0 5 1] ≠
      uniqueExercises [sampleEntry "1" "L" 0 5 1] :=
  ⟨by decide, by decide, by decide⟩

/-- C2: when the pulled remote partition is non-empty (either list
non-empty), `loadFromCloud` replaces the active local partition in full:
the resulting lists are exactly the remote lists, with no record-level
merge, so local-only records are lost. -/
theorem loadFromCloud_replaces (localData cloudData : Partition)
    (h : cloudData.lifts ≠ [] ∨ cloudData.workouts ≠ []) :
    loadFromCloud localData cloudData = cloudData ∧
    (loadFromCloud localData cloudData).lifts = cloudData.lifts ∧
    (loadFromCloud localData cloudData).workouts = cloudData.workouts ∧
    (∀ l ∈ localData.lifts, l ∉ cloudData.lifts →
      l ∉ (loadFromCloud localData cloudData).lifts) ∧
    (∀ w ∈ localData.workouts, w ∉ cloudData.workouts →
      w ∉ (loadFromCloud localData cloudData).workouts) := by
  have hc : 0 < cloudData.lifts.length ∨ 0 < cloudData.workouts.length := by
    rcases h with h | h
    · exact Or.inl (List.length_pos.mpr h)
    · exact Or.inr (List.length_pos.mpr h)
  have he : loadFromCloud localData cloudData = cloudData := by
    rw [loadFromCloud, if_pos hc]
  refine ⟨he, by rw [he], by rw [he], ?_, ?_⟩
  · intro l _ hl
    rw [he]
    exact hl
  · intro w _ hw
    rw [he]
    exact hw

/-- Witness for C2 at a concrete input: a non-empty remote partition
replaces a different local one wholesale. -/
theorem loadFromCloud_replaces_witness :
    loadFromCloud
        { lifts := [{ id := "1", name := "Squat", createdAt := "a" }],
          workouts := [] }
        { lifts := [{ id := "2", name := "Bench", createdAt := "b" }],
          workouts := [] } =
      { lifts := [{ id := "2", name := "Bench", createdAt := "b" }],
        workouts := [] } :=
  (loadFromCloud_replaces
      { lifts := [{ id := "1", name := "Squat", createdAt := "a" }],
        workouts := [] }
      { lifts := [{ id := "2", name := "Bench", createdAt := "b" }],
        workouts := [] }
      (Or.inl (by decide))).1

/-- Counterexample to C3 as stated: signing in with an empty local
partition and an empty remote partition leaves the local data unchanged
but triggers no push, because the auto-sync call is guarded by
`lifts.length > 0 || workouts.length > 0` on the local lists. -/
theorem signInEffect_counterexample :
    signInEffect { lifts := [], workouts := [] }
        { lifts := [], workouts := [] } =
      ({ lifts := [], workouts := [] }, false) := by decide

/-- C3 (amended): when the pulled remote partition is empty, the local
lists are left completely unchanged by the pull, and the push of the local
partition to the remote is triggered exactly when the local partition is
itself non-empty. -/
theorem signInEffect_empty_remote (localData cloudData : Partition)
    (hl : cloudData.lifts = []) (hw : cloudData.workouts = []) :
    (signInEffect localData cloudData).1 = localData ∧
    ((signInEffect localData cloudData).2 = true ↔
      (localData.lifts ≠ [] ∨ localData.workouts ≠ [])) := by
  constructor
  · show loadFromCloud localData cloudData = localData
    rw [loadFromCloud, if_neg]
    rw [hl, hw]
    simp
  · show (decide (0 < localData.lifts.length) ||
        decide (0 < localData.workouts.length)) = true ↔ _
    simp [List.length_pos]

/-- Witness for C3 (amended) at a concrete input: an empty remote leaves a
one-lift local partition unchanged. -/
theorem signInEffect_empty_remote_witness :
    (signInEffect
        { lifts := [{ id := "1", name := "Squat", createdAt := "a" }],
          workouts := [] }
        { lifts := [], workouts := [] }).1 =
      { lifts := [{ id := "1", name := "Squat", createdAt := "a" }],
        workouts := [] } :=
  (signInEffect_empty_remote
      { lifts := [{ id := "1", name := "Squat", createdAt := "a" }],
        workouts := [] }
      { lifts := [], workouts := [] } rfl rfl).1

/-- C10: the Sync Bridge degrades every failure to a harmless value rather
than throwing: the push returns `false` for an empty user id, a rejected
request, or a non-ok response; the pull returns the pair of empty lists for
an empty user id, a rejected request, a non-ok response, or an ok response
whose data fields are absent. -/
theorem syncBridge_failure_degrades (uid : String) (o : SyncFetchOutcome)
    (lo : LoadFetchOutcome) (b : LoadBody) (ok : Bool) :
    syncDataToCloud "" o = false ∧
    syncDataToCloud uid .netError = false ∧
    syncDataToCloud uid (.response false) = false ∧
    loadDataFromCloud "" lo = ([], []) ∧
    loadDataFromCloud uid .netError = ([], []) ∧
    loadDataFromCloud uid (.response false b) = ([], []) ∧
    loadDataFromCloud uid (.response ok { lifts := none, workouts := none }) =
      ([], []) := by
  refine ⟨?_, ?_, ?_, ?_, ?_, ?_, ?_⟩
  · simp [syncDataToCloud]
  · by_cases h : uid = "" <;> simp [syncDataToCloud, h]
  · by_cases h : uid = "" <;> simp [syncDataToCloud, h]
  · simp [loadDataFromCloud]
  · by_cases h : uid = "" <;> simp [loadDataFromCloud, h]
  · by_cases h : uid = "" <;> simp [loadDataFromCloud, h]
  · by_cases h : uid = "" <;> cases ok <;> simp [loadDataFromCloud, h]

theorem applyOp_entryOk (s : TrackerState) (op : Op)
    (hs : ∀ w ∈ s.workouts, EntryOk w) (hop : OpInRange op) :
    ∀ w ∈ (applyOp s op).workouts, EntryOk w := by
  cases op with
  | addLift id name createdAt =>
      intro w hw
      apply hs
      simp only [applyOp, addLift] at hw
      by_cases h : name.trim = ""
      · rw [if_pos h] at hw; exact hw
      · rw [if_neg h] at hw; exact hw
  | logWorkout id form date =>
      intro w hw
      simp only [applyOp, logWorkout] at hw
      split at hw
      · rename_i wv rv sv hwe hre hse
        split at hw
        · exact hs w hw
        · rcases List.mem_cons.mp hw with rfl | hw2
          · have hform : FormInRange form := hop
            refine ⟨hform.1 wv hwe, hform.2.1 rv hre, hform.2.2 sv hse, ?_, ?_⟩
            · cases form.difficulty <;> norm_num [Difficulty.val]
            · cases form.difficulty <;> norm_num [Difficulty.val]
          · exact hs w hw2
      · exact hs w hw
  | deleteLift id =>
      intro w hw
      simp only [applyOp, deleteLift] at hw
      exact hs w (List.mem_of_mem_filter hw)
  | deleteWorkout id =>
      intro w hw
      simp only [applyOp, deleteWorkout] at hw
      exact hs w (List.mem_of_mem_filter hw)

theorem runOps_entryOk (ops : List Op) :
    ∀ s : TrackerState, (∀ w ∈ s.workouts, EntryOk w) →
      (∀ op ∈ ops, OpInRange op) →
      ∀ w ∈ (runOps s ops).workouts, EntryOk w := by
  induction ops with
  | nil => intro s hs _ w hw; exact hs w hw
  | cons op rest ih =>
      intro s hs hops
      rw [runOps]
      exact ih (applyOp s op)
        (applyOp_entryOk s op hs (hops op (List.mem_cons_self _ _)))
        (fun o ho => hops o (List.mem_cons_of_mem _ ho))

theorem applyOp_difficultyOk (s : TrackerState) (op : Op)
    (hs : ∀ w ∈ s.workouts, 1 ≤ w.difficulty.val ∧ w.difficulty.val ≤ 5) :
    ∀ w ∈ (applyOp s op).workouts,
      1 ≤ w.difficulty.val ∧ w.difficulty.val ≤ 5 := by
  cases op with
  | addLift id name createdAt =>
      intro w hw
      apply hs
      simp only [applyOp, addLift] at hw
      by_cases h : name.trim = ""
      · rw [if_pos h] at hw; exact hw
      · rw [if_neg h] at hw; exact hw
  | logWorkout id form date =>
      intro w hw
      simp only [applyOp, logWorkout] at hw
      split at hw
      · split at hw
        · exact hs w hw
        · rcases List.mem_cons.mp hw with rfl | hw2
          · constructor
            · cases form.difficulty <;> norm_num [Difficulty.val]
            · cases form.difficulty <;> norm_num [Difficulty.val]
          · exact hs w hw2
      · exact hs w hw
  | deleteLift id =>
      intro w hw
      simp only [applyOp, deleteLift] at hw
      exact hs w (List.mem_of_mem_filter hw)
  | deleteWorkout id =>
      intro w hw
      simp only [applyOp, deleteWorkout] at hw
      exact hs w (List.mem_of_mem_filter hw)

theorem runOps_difficultyOk (ops : List Op) :
    ∀ s : TrackerState,
      (∀ w ∈ s.workouts, 1 ≤ w.difficulty.val ∧ w.difficulty.val ≤ 5) →
      ∀ w ∈ (runOps s ops).workouts,
        1 ≤ w.difficulty.val ∧ w.difficulty.val ≤ 5 := by
  induction ops with
  | nil => intro s hs w hw; exact hs w hw
  | cons op rest ih =>
      intro s hs
      rw [runOps]
      exact ih (applyOp s op) (applyOp_difficultyOk s op hs)

/-- C9 (amended): starting from empty lists, after any sequence of the
public operations every stored entry satisfies `difficulty ∈ [1,5]`
unconditionally (the RPE selector admits only the five levels); the bounds
`weight ≥ 0`, `reps ≥ 1`, `sets ≥ 1` additionally hold provided every
log-session submission carries in-range parsed values (the form itself
checks only presence, not ranges); and a log-session submission with a
missing required field — no exercise selected, or an empty weight, reps or
sets input — is always a no-op that creates no entry. -/
theorem runOps_invariant (ops : List Op) :
    (∀ w ∈ (runOps emptyState ops).workouts,
      1 ≤ w.difficulty.val ∧ w.difficulty.val ≤ 5) ∧
    ((∀ op ∈ ops, OpInRange op) →
      ∀ w ∈ (runOps emptyState ops).workouts,
        0 ≤ w.weight ∧ 1 ≤ w.reps ∧ 1 ≤ w.sets ∧
          1 ≤ w.difficulty.val ∧ w.difficulty.val ≤ 5) ∧
    (∀ (s : TrackerState) (id : String) (form : LogForm) (date : ℤ),
      (form.selectedLiftId = "" ∨ form.weight = none ∨ form.reps = none ∨
        form.sets = none) →
      logWorkout s id form date = s) := by
  refine ⟨?_, ?_, ?_⟩
  · exact runOps_difficultyOk ops emptyState
      (fun w hw => absurd hw (by simp [emptyState]))
  · intro hops
    exact runOps_entryOk ops emptyState
      (fun w hw => absurd hw (by simp [emptyState])) hops
  · intro s id form date hmiss
    rcases hw : form.weight with _ | a <;>
      rcases hr : form.reps with _ | b <;>
        rcases hs2 : form.sets with _ | c <;>
          simp_all [logWorkout]

/-- Counterexample to C9 as stated: submitting the log form with reps 0
(the string `0` is truthy, so the presence check passes) creates an entry
with `reps = 0`, violating the claimed `reps ≥ 1` invariant. -/
theorem logWorkout_range_counterexample :
    (runOps emptyState
        [Op.logWorkout "1"
          { selectedLiftId := "L", weight := some 100, reps := some 0,
            sets := some 3, difficulty := .three } 1]).workouts =
      [{ id := "1", liftId := "L", weight := 100, reps := 0, sets := 3,
         difficulty := .three, date := 1 }] ∧
    ¬ (1 ≤ ({ id := "1", liftId := "L", weight := 100, reps := 0, sets := 3,
                difficulty := .three, date := 1 } : WorkoutEntry).reps) :=
  ⟨by decide, by decide⟩

/-- Witness for C9 (amended) at a concrete input: one in-range log
submission yields an entry satisfying the invariant. -/
theorem runOps_invariant_witness :
    0 ≤ ({ id := "1", liftId := "L", weight := 100, reps := 5, sets := 3,
             difficulty := .three, date := 1 } : WorkoutEntry).weight ∧
    1 ≤ ({ id := "1", liftId := "L", weight := 100, reps := 5, sets := 3,
             difficulty := .three, date := 1 } : WorkoutEntry).reps ∧
    1 ≤ ({ id := "1", liftId := "L", weight := 100, reps := 5, sets := 3,
             difficulty := .three, date := 1 } : WorkoutEntry).sets ∧
    1 ≤ ({ id := "1", liftId := "L", weight := 100, reps := 5, sets := 3,
             difficulty := .three, date := 1 } : WorkoutEntry).difficulty.val ∧
    ({ id := "1", liftId := "L", weight := 100, reps := 5, sets := 3,
          difficulty := .three, date := 1 } : WorkoutEntry).difficulty.val ≤ 5 :=
  (runOps_invariant
      [Op.logWorkout "1"
        { selectedLiftId := "L", weight := some 100, reps := some 5,
          sets := some 3, difficulty := .three } 1]).2.1
    (by
        intro o ho
        rcases List.mem_singleton.mp ho with rfl
        refine ⟨?_, ?_, ?_⟩
        · intro x hx
          injection hx with h
          rw [← h]
          norm_num
        · intro x hx
          injection hx with h
          rw [← h]
          norm_num
        · intro x hx
          injection hx with h
          rw [← h]
          norm_num)
    { id := "1", liftId := "L", weight := 100, reps := 5, sets := 3,
      difficulty := .three, date := 1 }
    (by decide)
